import Mathlib

/-!
Verification development for the Stem-Visualizer repository.

The repository's own logic lives in `src/app.py` (development cache for
separation results) and `src/separation.py` (audio loading, stem separation
driver, stem mixing).  This file gives a shallow embedding of those functions
and proves the specification's claims about them.

Modelling conventions:
* Filesystem paths are lists of components (`Path`); `os.path.join`
  appends a component, `os.path.basename` takes the last component,
  `os.path.dirname` drops it.
* The filesystem is an explicit state value threaded through the embedded
  functions.  Byte files are `List Nat`; decoded audio files are channel
  lists of rational samples (`List (List ℚ)`), an exact-arithmetic
  idealisation of the float tensors used by the code.
* Third-party library calls (hashlib.md5, torchaudio, librosa, ffmpeg,
  demucs) are parameters of the embedding: for the code's logic they are
  opaque deterministic functions, which is exactly how the source uses them.
* Python exceptions are `Except`/`Option` results.
-/

namespace StemViz

/-- A filesystem path, as its list of components. -/
abbrev Path := List String

/-- Association-list lookup; first binding wins, so prepending a pair models
an overwriting update. -/
def assocLookup {κ β : Type} [DecidableEq κ] : List (κ × β) → κ → Option β
  | [], _ => none
  | (q, v) :: rest, k => if q = k then some v else assocLookup rest k

/-! ### Byte-level filesystem model (for the cache functions in app.py) -/

/-- A filesystem: regular files with byte contents, plus a set of
directories that exist. -/
structure FS where
  files : List (Path × List Nat)
  dirs : List Path
deriving DecidableEq

/-- Contents of the file at path `p`, `none` when no such file exists. -/
def lookupFile (fs : FS) (p : Path) : Option (List Nat) :=
  assocLookup fs.files p

/-- Python `os.path.exists` probed on a regular file path. -/
def fileExists (fs : FS) (p : Path) : Bool :=
  (lookupFile fs p).isSome

/-- Python `os.path.exists` probed on a directory path. -/
def dirExists (fs : FS) (d : Path) : Bool :=
  fs.dirs.contains d

/-- Create or overwrite the file at `p` with contents `c`
(the write half of `shutil.copy2`). -/
def writeFile (fs : FS) (p : Path) (c : List Nat) : FS :=
  ⟨(p, c) :: fs.files, fs.dirs⟩

/-- Python `os.makedirs(d, exist_ok=True)`. -/
def mkdir (fs : FS) (d : Path) : FS :=
  ⟨fs.files, d :: fs.dirs⟩

/-- Python `os.path.getsize`: byte size of an existing file, an exception
(`none`) otherwise. -/
def getsize (fs : FS) (p : Path) : Option Nat :=
  (lookupFile fs p).map List.length

/-- Python `os.path.basename`. -/
def basename (p : Path) : String :=
  p.getLastD ""

/-- Python `os.path.join` with one extra component. -/
def joinP (d : Path) (b : String) : Path :=
  d ++ [b]

/-- Python `os.path.dirname`. -/
def dirname (p : Path) : Path :=
  p.dropLast

/-! ### The development cache (app.py lines 36, 69-121) -/

/-- app.py line 36: the cache root `.../cache/stems`.  The `__file__`-relative
prefix is modelled as this fixed relative root. -/
def DEV_CACHE_DIR : Path := ["cache", "stems"]

/-- The fixed stem vocabulary iterated over at app.py line 92. -/
def stemNames : List String := ["vocals", "drums", "bass", "other"]

/-- app.py lines 80-82 (and identically 108-110): the cache key string
`f"{file_name}_{file_size}_{model_name}"` fed through `hashlib.md5` and
hex-encoded.  The md5 hex digest is the parameter `md5hex`, an arbitrary
deterministic function supplied by the library. -/
def cache_key_hash (md5hex : String → String) (file_name : String)
    (file_size : Nat) (model_name : String) : String :=
  md5hex (file_name ++ "_" ++ toString file_size ++ "_" ++ model_name)

/-- The cache directory both `get_cached_stems` and `save_to_cache` address
for a given input: `DEV_CACHE_DIR/<md5 of basename_size_model>`; `none` when
`os.path.getsize` on the input raises. -/
def cacheDirFor (md5hex : String → String) (fs : FS)
    (input_path : Path) (model_name : String) : Option Path :=
  (getsize fs input_path).map fun file_size =>
    joinP DEV_CACHE_DIR
      (cache_key_hash md5hex (basename input_path) file_size model_name)

/-- app.py lines 69-100, `get_cached_stems(input_path, model_name)`.
The result pairs the (unchanged, since the function only reads) filesystem
with the outcome; the outer `Except` is a propagated exception from
`os.path.getsize` on a missing input.  The Streamlit `st.info` call is a pure
UI message and not part of the state. -/
def get_cached_stems (md5hex : String → String) (fs : FS)
    (input_path : Path) (model_name : String) :
    Except Unit (FS × Option (List (String × Path))) :=
  match getsize fs input_path with
  | none => .error ()
  | some file_size =>
    let cache_dir := joinP DEV_CACHE_DIR
      (cache_key_hash md5hex (basename input_path) file_size model_name)
    if dirExists fs cache_dir then
      let stem_paths := stemNames.filterMap fun stem_name =>
        let stem_path := joinP cache_dir (stem_name ++ ".wav")
        if fileExists fs stem_path then some (stem_name, stem_path) else none
      if 0 < stem_paths.length then .ok (fs, some stem_paths)
      else .ok (fs, none)
    else .ok (fs, none)

/-- app.py lines 116-119: the copy loop of `save_to_cache`, copying each
stem file into the cache directory under its canonical name; `shutil.copy2`
raises when the source file is missing. -/
def copyAll (cache_dir : Path) : FS → List (String × Path) → Except Unit FS
  | fs, [] => .ok fs
  | fs, (stem_name, stem_path) :: rest =>
    match lookupFile fs stem_path with
    | none => .error ()
    | some content =>
      copyAll cache_dir
        (writeFile fs (joinP cache_dir (stem_name ++ ".wav")) content) rest

/-- app.py lines 102-121, `save_to_cache(input_path, model_name, stem_paths)`:
recompute the cache key, create the directory, copy every stem in. -/
def save_to_cache (md5hex : String → String) (fs : FS)
    (input_path : Path) (model_name : String)
    (stem_paths : List (String × Path)) : Except Unit FS :=
  match getsize fs input_path with
  | none => .error ()
  | some file_size =>
    let cache_dir := joinP DEV_CACHE_DIR
      (cache_key_hash md5hex (basename input_path) file_size model_name)
    copyAll cache_dir (mkdir fs cache_dir) stem_paths

/-! ### Audio-level filesystem model (for separation.py)

Decoded audio is a list of channels, each a list of rational samples: an
exact-arithmetic idealisation of the float32 tensors in the code (the spec's
numeric claims are stated "up to floating tolerance").  A track that
`torchaudio.load` would fail on (missing or undecodable) is simply absent
from the map. -/

/-- A waveform: channels of rational samples. -/
abbrev Wave := List (List ℚ)

/-- The audio filesystem: decodable tracks (waveform and sample rate), plus
existing directories. -/
structure AFS where
  tracks : List (Path × (Wave × Nat))
  dirs : List Path
deriving DecidableEq

/-- `torchaudio.load` on a stored track: the waveform and its sample rate,
or a raised exception (`none`) when the file is missing or undecodable. -/
def loadTrack (fs : AFS) (p : Path) : Option (Wave × Nat) :=
  assocLookup fs.tracks p

/-- `torchaudio.save` (successful case): create or overwrite the track. -/
def writeTrack (fs : AFS) (p : Path) (w : Wave) (sr : Nat) : AFS :=
  ⟨(p, (w, sr)) :: fs.tracks, fs.dirs⟩

/-- Python `os.makedirs(d, exist_ok=True)` on the audio filesystem. -/
def mkdirA (fs : AFS) (d : Path) : AFS :=
  ⟨fs.tracks, d :: fs.dirs⟩

/-- Largest absolute sample of one channel (`np.max(np.abs(...))` over it),
0 for an empty channel. -/
def absMaxL (l : List ℚ) : ℚ :=
  l.foldr (fun x m => max |x| m) 0

/-- Peak absolute sample of a waveform: `mixed.abs().max()` in the code. -/
def peak (w : Wave) : ℚ :=
  w.foldr (fun ch m => max (absMaxL ch) m) 0

/-- Sample-wise sum of two waveforms (`mixed + waveform` on equal-shape
tensors; on unequal shapes the model truncates where torch would raise,
a case the spec rules out since all stems come from one separation call). -/
def addW (a b : Wave) : Wave :=
  List.zipWith (fun c d => List.zipWith (· + ·) c d) a b

/-- separation.py lines 223-225: divide the mix by its peak and scale by 0.9,
but only when the peak is positive. -/
def normalizeMix (mixed : Wave) : Wave :=
  if 0 < peak mixed then
    mixed.map fun ch => ch.map fun x => x / peak mixed * (9 / 10)
  else mixed

/-! ### load_audio (separation.py lines 31-104) -/

/-- Result of `librosa.load(..., mono=False)`: a 1-D array for mono sources,
a 2-D one otherwise (the code checks `y.ndim == 1`). -/
inductive LArr where
  | mono (y : List ℚ)
  | multi (y : List (List ℚ))
deriving DecidableEq

/-- separation.py lines 48-50 / 79-81: `np.vstack([y, y])` when librosa gave
a mono array, identity otherwise. -/
def vstackDup : LArr → Wave
  | .mono y => [y, y]
  | .multi y => y

/-- The external decoding libraries used by `load_audio`, as opaque
deterministic functions: `torchaudio.load`, `librosa.load` (the second
argument is its `sr=` keyword), and the ffmpeg-convert-to-temp-WAV step
(returning the temp WAV path on success).  A `none` result models the
library call raising. -/
structure Decoders where
  torchLoad : Path → Option (Wave × Nat)
  librosaLoad : Path → Option Nat → Option (LArr × Nat)
  ffmpegConvert : Path → Option Path
deriving Inhabited

/-- The two distinct `RuntimeError` messages raised at separation.py
lines 84 and 86. -/
inductive LoadError where
  | allAttemptsFailed
  | couldNotLoad
deriving DecidableEq

/-- Python `os.path.splitext(...)[1].lower()`: the (lower-cased) extension of
the path's last component, `""` when there is no dot or only a leading one.
(Python also ignores runs of several leading dots, a case not arising here.) -/
def extOf (p : Path) : String :=
  let name := (basename p).data
  let afterDot := name.reverse.takeWhile (fun c => c ≠ '.')
  if afterDot.length + 1 < name.length
  then String.mk (('.' :: afterDot.reverse).map Char.toLower)
  else ""

/-- separation.py lines 88-104: resample when the decoded rate differs from
the target, truncate more-than-stereo to two channels, duplicate mono to
stereo, and return the target sample rate.  The resampler
(`torchaudio.transforms.Resample`) is the opaque parameter `resample`. -/
def postLoad (resample : Nat → Nat → Wave → Wave) (waveform : Wave)
    (sample_rate target_sr : Nat) : Wave × Nat :=
  let w1 := if sample_rate ≠ target_sr then resample sample_rate target_sr waveform
    else waveform
  let w2 := if 2 < w1.length then w1.take 2 else w1
  let w3 := if w2.length == 1 then w2 ++ w2 else w2
  (w3, target_sr)

/-- separation.py lines 31-104, `load_audio(input_file, target_sr)`:
try `torchaudio.load`; on failure `librosa.load(sr=None)`; on failure, only
for `.m4a`/`.aac`/`.mp4` inputs, an ffmpeg conversion to a temporary WAV
reloaded with torchaudio, and if that fails too `librosa.load(sr=target_sr)`;
otherwise raise.  Successful decodes flow through `postLoad`. -/
def load_audio (d : Decoders) (resample : Nat → Nat → Wave → Wave)
    (input_file : Path) (target_sr : Nat) : Except LoadError (Wave × Nat) :=
  match d.torchLoad input_file with
  | some (waveform, sample_rate) =>
    .ok (postLoad resample waveform sample_rate target_sr)
  | none =>
    match d.librosaLoad input_file none with
    | some (y, sample_rate) =>
      .ok (postLoad resample (vstackDup y) sample_rate target_sr)
    | none =>
      if extOf input_file ∈ [".m4a", ".aac", ".mp4"] then
        match (d.ffmpegConvert input_file).bind d.torchLoad with
        | some (waveform, sample_rate) =>
          .ok (postLoad resample waveform sample_rate target_sr)
        | none =>
          match d.librosaLoad input_file (some target_sr) with
          | some (y, sample_rate) =>
            .ok (postLoad resample (vstackDup y) sample_rate target_sr)
          | none => .error .allAttemptsFailed
      else .error .couldNotLoad

/-- The spec's view of `load_audio` ("ordered chain of decoding strategies"),
for refinement comparison: each strategy as a tagged success/failure value,
in the order the code consults them.  The converter strategies are only in
the chain for the three extensions the code converts. -/
def decodeStrategies (d : Decoders) (input_file : Path) (target_sr : Nat) :
    List (Option (Wave × Nat)) :=
  let s1 := d.torchLoad input_file
  let s2 := (d.librosaLoad input_file none).map fun yr => (vstackDup yr.1, yr.2)
  let s3 := (d.ffmpegConvert input_file).bind d.torchLoad
  let s4 := (d.librosaLoad input_file (some target_sr)).map
    fun yr => (vstackDup yr.1, yr.2)
  if extOf input_file ∈ [".m4a", ".aac", ".mp4"] then [s1, s2, s3, s4]
  else [s1, s2]

/-- Modelled from the spec: the "short-circuit on first success" combinator
over an ordered list of strategy outcomes. -/
def firstSuccess {α : Type} : List (Option α) → Option α
  | [] => none
  | some a :: _ => some a
  | none :: rest => firstSuccess rest

/-! ### separate_audio and save_audio (separation.py lines 106-193) -/

/-- The external collaborators of `separate_audio` and `save_audio`:
the decoders, the resampler, the Demucs model accessors
(`get_model(name).samplerate`, `.sources`, `apply_model`), and the
environment-dependent success of the three `save_audio` backends
(torchaudio-soundfile, torchaudio-default, scipy). -/
structure SepEnv where
  dec : Decoders
  resample : Nat → Nat → Wave → Wave
  modelSamplerate : String → Nat
  modelSources : String → List String
  applyModel : String → Wave → List Wave
  saveSoundfileOk : Bool
  saveDefaultOk : Bool
  saveScipyOk : Bool

/-- separation.py lines 106-142, `save_audio(audio, path, sample_rate)`:
peak-normalize to 0.9 only when the peak exceeds 1, create the parent
directory, then try the soundfile backend, the default backend, and scipy in
turn; raise when all three fail.  (The scipy fallback's int16 quantisation is
a container detail; the model records the stored waveform.) -/
def save_audio (env : SepEnv) (fs : AFS) (audio : Wave) (path : Path)
    (sample_rate : Nat) : Except Unit AFS :=
  let audio := if 1 < peak audio then
      audio.map fun ch => ch.map fun x => x / peak audio * (9 / 10)
    else audio
  let fs := mkdirA fs (dirname path)
  if env.saveSoundfileOk then .ok (writeTrack fs path audio sample_rate)
  else if env.saveDefaultOk then .ok (writeTrack fs path audio sample_rate)
  else if env.saveScipyOk then .ok (writeTrack fs path audio sample_rate)
  else .error ()

/-- Python `os.path.splitext(...)[0]` on a basename: strip the extension
found by `extOf`. -/
def stripExt (p : Path) : String :=
  let name := basename p
  name.data.take (name.data.length - (extOf p).data.length) |> String.mk

/-- separation.py lines 186-191: the save loop of `separate_audio`, walking
`enumerate(model.sources)`; `stems[stem_idx]` raises (IndexError) when the
model returned fewer stem buffers than sources. -/
def saveStems (env : SepEnv) (stems : List Wave) (output_folder : Path)
    (sample_rate : Nat) :
    AFS → Nat → List String → Except Unit (AFS × List (String × Path))
  | fs, _, [] => .ok (fs, [])
  | fs, stem_idx, stem_name :: rest =>
    match stems.get? stem_idx with
    | none => .error ()
    | some stem_audio =>
      let stem_path := joinP output_folder (stem_name ++ ".wav")
      match save_audio env fs stem_audio stem_path sample_rate with
      | .error e => .error e
      | .ok fs1 =>
        match saveStems env stems output_folder sample_rate fs1 (stem_idx + 1) rest with
        | .error e => .error e
        | .ok (fs2, paths) => .ok (fs2, (stem_name, stem_path) :: paths)

/-- separation.py lines 144-193, `separate_audio(input_file, output_dir,
model_name, device)`: ensure the output directory, load the audio (returning
the empty mapping when that fails), apply the model, and save one file per
model source under `output_dir/<input stem>/`.  Device movement (`.to`) is a
no-op in the model. -/
def separate_audio (env : SepEnv) (fs : AFS)
    (input_file output_dir : Path) (model_name : String) :
    Except Unit (AFS × List (String × Path)) :=
  let fs0 := mkdirA fs output_dir
  match load_audio env.dec env.resample input_file
      (env.modelSamplerate model_name) with
  | .error _ => .ok (fs0, [])
  | .ok (audio, _sr) =>
    let stems := env.applyModel model_name audio
    let base_name := stripExt input_file
    let output_folder := joinP output_dir base_name
    let fs1 := mkdirA fs0 output_folder
    saveStems env stems output_folder (env.modelSamplerate model_name)
      fs1 0 (env.modelSources model_name)

/-! ### mix_stems (separation.py lines 195-246) -/

/-- separation.py lines 208-220: the accumulation loop of `mix_stems`.
Selected names missing from `stem_paths` are skipped by the `in` test;
selected stems whose file fails to load are skipped by the `except` branch;
a successful load starts the mix or is added to it, and the loop's `sr`
variable keeps the rate of the last successful load. -/
def mixLoop (fs : AFS) (stem_paths : List (String × Path)) :
    Option (Wave × Nat) → List String → Option (Wave × Nat)
  | acc, [] => acc
  | acc, stem_name :: rest =>
    match assocLookup stem_paths stem_name with
    | some pth =>
      match loadTrack fs pth with
      | some (waveform, sr) =>
        match acc with
        | none => mixLoop fs stem_paths (some (waveform, sr)) rest
        | some (mixed, _) => mixLoop fs stem_paths (some (addW mixed waveform, sr)) rest
      | none => mixLoop fs stem_paths acc rest
    | none => mixLoop fs stem_paths acc rest

/-- The successfully loaded selected stems, in selection order: the
waveform/rate pairs the loop of `mix_stems` actually accumulates. -/
def loadedWaves (fs : AFS) (stem_paths : List (String × Path))
    (include_list : List String) : List (Wave × Nat) :=
  include_list.filterMap fun stem_name =>
    (assocLookup stem_paths stem_name).bind (loadTrack fs)

/-- Pairwise combination of a list of loaded stems, as the loop performs it:
sum of the waveforms, sample rate of the last one. -/
def combineLoaded : Option (Wave × Nat) → List (Wave × Nat) → Option (Wave × Nat)
  | acc, [] => acc
  | none, (w, sr) :: rest => combineLoaded (some (w, sr)) rest
  | some (m, _), (w, sr) :: rest => combineLoaded (some (addW m w, sr)) rest

/-- The save backends available to `mix_stems` (torchaudio with the
soundfile backend, then the default backend). -/
structure SaveBackends where
  soundfileOk : Bool
  defaultOk : Bool
deriving DecidableEq

/-- separation.py lines 195-246, `mix_stems(stem_paths, output_path,
include_list)`: empty (or absent) selection returns `None` immediately; the
loop accumulates the loadable selected stems; a non-empty mix is
peak-normalized, its parent directory created, and saved through the backend
chain — both backends failing returns `None` after the directory creation. -/
def mix_stems (env : SaveBackends) (fs : AFS)
    (stem_paths : List (String × Path)) (output_path : Path)
    (include_list : List String) : AFS × Option Path :=
  if include_list.isEmpty then (fs, none)
  else
    match mixLoop fs stem_paths none include_list with
    | some (mixed, sr) =>
      let mixed := normalizeMix mixed
      let fs1 := mkdirA fs (dirname output_path)
      if env.soundfileOk then (writeTrack fs1 output_path mixed sr, some output_path)
      else if env.defaultOk then (writeTrack fs1 output_path mixed sr, some output_path)
      else (fs1, none)
    | none => (fs, none)

/-- A concrete decoder environment: torchaudio only decodes the converted
temp WAV, librosa always fails, ffmpeg conversion succeeds.  Used to probe
`load_audio` on an input whose extension is outside the converted set. -/
def cexDecoders : Decoders :=
  ⟨fun p => if p = ["tmp0.wav"] then some ([[1 / 2], [1 / 2]], 44100) else none,
   fun _ _ => none,
   fun _ => some ["tmp0.wav"]⟩

/-! ### Basic filesystem lemmas -/

theorem lookupFile_write_same (fs : FS) (p : Path) (c : List Nat) :
    lookupFile (writeFile fs p c) p = some c := by
  simp [lookupFile, writeFile, assocLookup]

theorem lookupFile_write_ne (fs : FS) {p q : Path} (h : q ≠ p) (c : List Nat) :
    lookupFile (writeFile fs q c) p = lookupFile fs p := by
  simp [lookupFile, writeFile, assocLookup, h]

theorem lookupFile_mkdir (fs : FS) (d : Path) (p : Path) :
    lookupFile (mkdir fs d) p = lookupFile fs p := rfl

theorem dirs_write (fs : FS) (p : Path) (c : List Nat) :
    (writeFile fs p c).dirs = fs.dirs := rfl

theorem joinP_inj_right {d : Path} {x y : String} (h : joinP d x = joinP d y) :
    x = y := by
  have h2 := List.append_cancel_left (show d ++ [x] = d ++ [y] from h)
  simpa using h2

theorem wavName_inj {n1 n2 : String} (h1 : n1 ∈ stemNames) (h2 : n2 ∈ stemNames)
    (h : n1 ++ ".wav" = n2 ++ ".wav") : n1 = n2 := by
  fin_cases h1 <;> fin_cases h2 <;> first | rfl | exact absurd h (by decide)

theorem filterMap_if {α β : Type} (f : α → β) (c : α → Bool) (l : List α) :
    (l.filterMap fun a => if c a then some (f a) else none) = (l.filter c).map f := by
  induction l with
  | nil => rfl
  | cons a t ih => cases h : c a <;> simp [List.filterMap_cons, List.filter_cons, h, ih]

theorem cacheDir_eq {md5hex : String → String} {fs : FS} {p : Path} {m : String}
    {sz : Nat} {cdir : Path} (hsz : getsize fs p = some sz)
    (hdir : cacheDirFor md5hex fs p m = some cdir) :
    joinP DEV_CACHE_DIR (cache_key_hash md5hex (basename p) sz m) = cdir := by
  unfold cacheDirFor at hdir
  rw [hsz] at hdir
  exact Option.some.inj hdir

/-! ### Claim C1: cache key determinism -/

/-- C1: the cache key (hence the cache directory) computed by both
`get_cached_stems` and `save_to_cache` is a deterministic function of only
the basename of the input path, the byte size of the input file, and the
model identifier: two inputs agreeing on these three produce the same key,
regardless of file content or call order, and both functions behave
identically on them. -/
theorem cache_key_determinism (md5hex : String → String) (fs : FS)
    (p p' : Path) (m : String) (S : List (String × Path))
    (h1 : basename p = basename p') (h2 : getsize fs p = getsize fs p') :
    cacheDirFor md5hex fs p m = cacheDirFor md5hex fs p' m ∧
    get_cached_stems md5hex fs p m = get_cached_stems md5hex fs p' m ∧
    save_to_cache md5hex fs p m S = save_to_cache md5hex fs p' m S := by
  simp [cacheDirFor, get_cached_stems, save_to_cache, h1, h2]

theorem cache_key_determinism_witness :
    basename ["a", "song.mp3"] = basename ["b", "song.mp3"] ∧
    getsize ⟨[(["a", "song.mp3"], [0, 1, 2]), (["b", "song.mp3"], [9, 9, 9])], []⟩
        ["a", "song.mp3"] =
      getsize ⟨[(["a", "song.mp3"], [0, 1, 2]), (["b", "song.mp3"], [9, 9, 9])], []⟩
        ["b", "song.mp3"] ∧
    cacheDirFor id ⟨[(["a", "song.mp3"], [0, 1, 2]), (["b", "song.mp3"], [9, 9, 9])], []⟩
        ["a", "song.mp3"] "htdemucs" =
      cacheDirFor id ⟨[(["a", "song.mp3"], [0, 1, 2]), (["b", "song.mp3"], [9, 9, 9])], []⟩
        ["b", "song.mp3"] "htdemucs" :=
  ⟨by decide, by decide,
    (cache_key_determinism id _ ["a", "song.mp3"] ["b", "song.mp3"] "htdemucs" []
      (by decide) (by decide)).1⟩

/-! ### Claim C4: lookup is a read-only probe, and a miss is `None` -/

/-- C4: `get_cached_stems` never changes the filesystem, and when the input
file exists but the keyed cache directory is absent, or present with none of
the four recognized stem files, it returns `None` (a miss), not an error. -/
theorem lookup_read_only_and_miss (md5hex : String → String) (fs : FS)
    (p : Path) (m : String) :
    (∀ fs' r, get_cached_stems md5hex fs p m = .ok (fs', r) → fs' = fs) ∧
    (∀ sz cdir, getsize fs p = some sz →
      cacheDirFor md5hex fs p m = some cdir →
      (dirExists fs cdir = false ∨
        stemNames.filter (fun n => fileExists fs (joinP cdir (n ++ ".wav"))) = []) →
      get_cached_stems md5hex fs p m = .ok (fs, none)) := by
  constructor
  · intro fs' r h
    cases hg : getsize fs p with
    | none => simp [get_cached_stems, hg] at h
    | some sz =>
      simp only [get_cached_stems, hg] at h
      split at h
      · split at h <;> exact (congrArg Prod.fst (Except.ok.inj h)).symm
      · exact (congrArg Prod.fst (Except.ok.inj h)).symm
  · intro sz cdir hsz hdir hmiss
    have hceq := cacheDir_eq hsz hdir
    subst hceq
    simp only [get_cached_stems, hsz, filterMap_if (fun stem_name =>
      (stem_name, joinP (joinP DEV_CACHE_DIR
        (cache_key_hash md5hex (basename p) sz m)) (stem_name ++ ".wav")))]
    rcases hmiss with hmiss | hmiss
    · simp [hmiss]
    · split
      · simp [hmiss]
      · rfl

theorem lookup_read_only_and_miss_witness :
    get_cached_stems id ⟨[(["a", "song.mp3"], [0, 1, 2])], []⟩ ["a", "song.mp3"]
      "htdemucs" = .ok (⟨[(["a", "song.mp3"], [0, 1, 2])], []⟩, none) :=
  (lookup_read_only_and_miss id ⟨[(["a", "song.mp3"], [0, 1, 2])], []⟩
      ["a", "song.mp3"] "htdemucs").2 3
    ["cache", "stems", "song.mp3_3_htdemucs"] (by decide) (by decide)
    (Or.inl (by decide))

/-! ### Claim C3: partial cache tolerance -/

/-- C3: with the input file present and the keyed cache directory existing,
`get_cached_stems` is a hit exactly when at least one of the four expected
stem files exists, and then returns, as-is, exactly the subset of the four
expected files that exist (so a directory with only `vocals.wav` yields a
single-entry StemSet). -/
theorem partial_cache_tolerance (md5hex : String → String) (fs : FS)
    (p : Path) (m : String) (sz : Nat) (cdir : Path)
    (hsz : getsize fs p = some sz)
    (hdir : cacheDirFor md5hex fs p m = some cdir)
    (hex : dirExists fs cdir = true) :
    (stemNames.filter (fun n => fileExists fs (joinP cdir (n ++ ".wav"))) = [] →
      get_cached_stems md5hex fs p m = .ok (fs, none)) ∧
    (stemNames.filter (fun n => fileExists fs (joinP cdir (n ++ ".wav"))) ≠ [] →
      get_cached_stems md5hex fs p m = .ok (fs, some
        ((stemNames.filter fun n => fileExists fs (joinP cdir (n ++ ".wav"))).map
          fun n => (n, joinP cdir (n ++ ".wav"))))) := by
  have hceq := cacheDir_eq hsz hdir
  subst hceq
  constructor
  · intro hempty
    simp only [get_cached_stems, hsz, filterMap_if (fun stem_name =>
      (stem_name, joinP (joinP DEV_CACHE_DIR
        (cache_key_hash md5hex (basename p) sz m)) (stem_name ++ ".wav")))]
    simp [hex, hempty]
  · intro hne
    simp only [get_cached_stems, hsz, filterMap_if (fun stem_name =>
      (stem_name, joinP (joinP DEV_CACHE_DIR
        (cache_key_hash md5hex (basename p) sz m)) (stem_name ++ ".wav")))]
    simp only [hex, if_true]
    rw [if_pos]
    simp only [List.length_pos, ne_eq, List.map_eq_nil_iff]
    exact hne

theorem partial_cache_tolerance_witness :
    get_cached_stems id
      ⟨[(["a", "song.mp3"], [0, 1, 2]),
        (["cache", "stems", "song.mp3_3_htdemucs", "vocals.wav"], [7])],
       [["cache", "stems", "song.mp3_3_htdemucs"]]⟩
      ["a", "song.mp3"] "htdemucs" =
      .ok (⟨[(["a", "song.mp3"], [0, 1, 2]),
        (["cache", "stems", "song.mp3_3_htdemucs", "vocals.wav"], [7])],
       [["cache", "stems", "song.mp3_3_htdemucs"]]⟩, some
        [("vocals", ["cache", "stems", "song.mp3_3_htdemucs", "vocals.wav"])]) :=
  (partial_cache_tolerance id _ ["a", "song.mp3"] "htdemucs" 3
      ["cache", "stems", "song.mp3_3_htdemucs"] (by decide) (by decide)
      (by decide)).2 (by decide)

/-! ### Claim C2: cache round-trip -/

theorem copyAll_spec (cdir : Path) :
    ∀ (S : List (String × Path)) (fs : FS),
    (∀ x ∈ S, x.1 ∈ stemNames) →
    (S.map Prod.fst).Nodup →
    (∀ x ∈ S, (lookupFile fs x.2).isSome = true) →
    (∀ x ∈ S, ∀ y ∈ S, x.2 ≠ joinP cdir (y.1 ++ ".wav")) →
    ∃ fs2, copyAll cdir fs S = .ok fs2 ∧
      fs2.dirs = fs.dirs ∧
      (∀ q, (∀ x ∈ S, q ≠ joinP cdir (x.1 ++ ".wav")) →
        lookupFile fs2 q = lookupFile fs q) ∧
      (∀ x ∈ S, lookupFile fs2 (joinP cdir (x.1 ++ ".wav")) = lookupFile fs x.2) := by
  intro S
  induction S with
  | nil =>
    intro fs _ _ _ _
    exact ⟨fs, rfl, rfl, fun q _ => rfl, fun x hx => absurd hx (List.not_mem_nil x)⟩
  | cons hd T ih =>
    intro fs hvocab hnodup hsrc halias
    obtain ⟨n0, s0⟩ := hd
    obtain ⟨c0, hc0⟩ := Option.isSome_iff_exists.mp
      (hsrc (n0, s0) (List.mem_cons_self _ _))
    have hn0 : n0 ∉ T.map Prod.fst := (List.nodup_cons.mp hnodup).1
    have hstep : copyAll cdir fs ((n0, s0) :: T) =
        copyAll cdir (writeFile fs (joinP cdir (n0 ++ ".wav")) c0) T := by
      simp [copyAll, lookupFile] at hc0 ⊢
      rw [hc0]
    obtain ⟨fs2, hok, hdirs, hframe, hcont⟩ :=
      ih (writeFile fs (joinP cdir (n0 ++ ".wav")) c0)
        (fun x hx => hvocab x (List.mem_cons_of_mem _ hx))
        (List.Nodup.of_cons hnodup)
        (fun x hx => by
          rw [lookupFile_write_ne fs
            (Ne.symm (halias x (List.mem_cons_of_mem _ hx) (n0, s0)
              (List.mem_cons_self _ _))) c0]
          exact hsrc x (List.mem_cons_of_mem _ hx))
        (fun x hx y hy =>
          halias x (List.mem_cons_of_mem _ hx) y (List.mem_cons_of_mem _ hy))
    refine ⟨fs2, hstep ▸ hok, hdirs, ?_, ?_⟩
    · intro q hq
      have hq0 : q ≠ joinP cdir (n0 ++ ".wav") := hq (n0, s0) (List.mem_cons_self _ _)
      calc lookupFile fs2 q
          = lookupFile (writeFile fs (joinP cdir (n0 ++ ".wav")) c0) q :=
            hframe q (fun x hx => hq x (List.mem_cons_of_mem _ hx))
        _ = lookupFile fs q := lookupFile_write_ne fs (Ne.symm hq0) c0
    · intro x hx
      rcases List.mem_cons.mp hx with hx0 | hxT
      · subst hx0
        have hd0T : ∀ y ∈ T, joinP cdir (n0 ++ ".wav") ≠ joinP cdir (y.1 ++ ".wav") := by
          intro y hy heq
          apply hn0
          rw [show n0 = y.1 from wavName_inj (hvocab (n0, s0) (List.mem_cons_self _ _))
            (hvocab y (List.mem_cons_of_mem _ hy)) (joinP_inj_right heq)]
          exact List.mem_map_of_mem Prod.fst hy
        calc lookupFile fs2 (joinP cdir (n0 ++ ".wav"))
            = lookupFile (writeFile fs (joinP cdir (n0 ++ ".wav")) c0)
                (joinP cdir (n0 ++ ".wav")) := hframe _ hd0T
          _ = some c0 := lookupFile_write_same fs _ c0
          _ = lookupFile fs s0 := hc0.symm
      · have hxne : x.2 ≠ joinP cdir (n0 ++ ".wav") :=
          halias x (List.mem_cons_of_mem _ hxT) (n0, s0) (List.mem_cons_self _ _)
        calc lookupFile fs2 (joinP cdir (x.1 ++ ".wav"))
            = lookupFile (writeFile fs (joinP cdir (n0 ++ ".wav")) c0) x.2 :=
              hcont x hxT
          _ = lookupFile fs x.2 := lookupFile_write_ne fs (Ne.symm hxne) c0

/-- C2 (counterexample): as universally stated over all stem sets the
round-trip claim fails at the empty stem set: the store succeeds, but the
subsequent lookup returns `None` (a cache miss), not a StemSet containing
exactly the (zero) stem names of `S`. -/
theorem cache_round_trip_cex :
    ∃ fs2, save_to_cache id ⟨[(["song.mp3"], [0, 1, 2])], []⟩ ["song.mp3"]
        "htdemucs" [] = .ok fs2 ∧
      get_cached_stems id fs2 ["song.mp3"] "htdemucs" = .ok (fs2, none) ∧
      ∀ l, get_cached_stems id fs2 ["song.mp3"] "htdemucs" ≠ .ok (fs2, some l) := by
  refine ⟨⟨[(["song.mp3"], [0, 1, 2])],
    [["cache", "stems", "song.mp3_3_htdemucs"]]⟩, rfl, rfl, ?_⟩
  intro l h
  rw [show get_cached_stems id ⟨[(["song.mp3"], [0, 1, 2])],
    [["cache", "stems", "song.mp3_3_htdemucs"]]⟩ ["song.mp3"] "htdemucs" =
      .ok (⟨[(["song.mp3"], [0, 1, 2])],
        [["cache", "stems", "song.mp3_3_htdemucs"]]⟩, none) from rfl] at h
  exact Option.noConfusion (congrArg Prod.snd (Except.ok.inj h))

/-- C2 (amended): for every nonempty stem set `S` whose names come from the
fixed vocabulary (without repetition), whose referenced files exist, and
which does not alias the computed cache destinations (neither the input file
nor any source stem sits at a destination path, and no expected stem file
for a name outside `S` pre-exists there), storing `S` and then looking the
key up returns a StemSet containing exactly the stem names of `S`, each
entry pointing to content byte-identical to the stored file. -/
theorem cache_round_trip (md5hex : String → String) (fs : FS) (p : Path)
    (m : String) (S : List (String × Path)) (sz : Nat) (cdir : Path)
    (hsz : getsize fs p = some sz)
    (hdir : cacheDirFor md5hex fs p m = some cdir)
    (hne : S ≠ [])
    (hvocab : ∀ x ∈ S, x.1 ∈ stemNames)
    (hnodup : (S.map Prod.fst).Nodup)
    (hsrc : ∀ x ∈ S, (lookupFile fs x.2).isSome = true)
    (hinp : ∀ x ∈ S, p ≠ joinP cdir (x.1 ++ ".wav"))
    (halias : ∀ x ∈ S, ∀ y ∈ S, x.2 ≠ joinP cdir (y.1 ++ ".wav"))
    (hfresh : ∀ n ∈ stemNames, n ∉ S.map Prod.fst →
      fileExists fs (joinP cdir (n ++ ".wav")) = false) :
    ∃ fs2 l, save_to_cache md5hex fs p m S = .ok fs2 ∧
      get_cached_stems md5hex fs2 p m = .ok (fs2, some l) ∧
      (∀ n, n ∈ l.map Prod.fst ↔ n ∈ S.map Prod.fst) ∧
      (∀ x ∈ S, (x.1, joinP cdir (x.1 ++ ".wav")) ∈ l ∧
        lookupFile fs2 (joinP cdir (x.1 ++ ".wav")) = lookupFile fs x.2) := by
  have hceq := cacheDir_eq hsz hdir
  subst hceq
  obtain ⟨fs2, hok, hdirs, hframe, hcont⟩ :=
    copyAll_spec _ S (mkdir fs (joinP DEV_CACHE_DIR
      (cache_key_hash md5hex (basename p) sz m))) hvocab hnodup hsrc halias
  have hsave : save_to_cache md5hex fs p m S = .ok fs2 := by
    simp only [save_to_cache, hsz]
    exact hok
  have hlp : lookupFile fs2 p = lookupFile fs p := hframe p hinp
  have hsz2 : getsize fs2 p = some sz := by
    unfold getsize
    rw [hlp]
    exact hsz
  have hdirex : dirExists fs2 (joinP DEV_CACHE_DIR
      (cache_key_hash md5hex (basename p) sz m)) = true := by
    simp [dirExists, hdirs, mkdir]
  have hchar : ∀ n ∈ stemNames,
      (fileExists fs2 (joinP (joinP DEV_CACHE_DIR
        (cache_key_hash md5hex (basename p) sz m)) (n ++ ".wav")) = true ↔
       n ∈ S.map Prod.fst) := by
    intro n hn
    constructor
    · intro hex2
      by_contra hns
      have hfr := hframe (joinP (joinP DEV_CACHE_DIR
        (cache_key_hash md5hex (basename p) sz m)) (n ++ ".wav"))
        (fun x hx heq => hns (by
          rw [show n = x.1 from wavName_inj hn (hvocab x hx) (joinP_inj_right heq)]
          exact List.mem_map_of_mem Prod.fst hx))
      have hff := hfresh n hn hns
      rw [fileExists, hfr, lookupFile_mkdir] at hex2
      rw [fileExists] at hff
      rw [hff] at hex2
      exact Bool.noConfusion hex2
    · intro hns
      obtain ⟨x, hx, hx1⟩ := List.mem_map.mp hns
      subst hx1
      rw [fileExists, hcont x hx]
      exact hsrc x hx
  -- the hit list built by the lookup
  refine ⟨fs2, ((stemNames.filter fun n => fileExists fs2 (joinP (joinP DEV_CACHE_DIR
      (cache_key_hash md5hex (basename p) sz m)) (n ++ ".wav"))).map
      fun n => (n, joinP (joinP DEV_CACHE_DIR
        (cache_key_hash md5hex (basename p) sz m)) (n ++ ".wav"))),
    hsave, ?_, ?_, ?_⟩
  · -- the lookup is a hit returning exactly that list
    obtain ⟨x0, hx0⟩ := List.exists_mem_of_ne_nil S hne
    have hx0f : x0.1 ∈ stemNames.filter fun n => fileExists fs2 (joinP (joinP
        DEV_CACHE_DIR (cache_key_hash md5hex (basename p) sz m)) (n ++ ".wav")) :=
      List.mem_filter.mpr ⟨hvocab x0 hx0,
        (hchar x0.1 (hvocab x0 hx0)).mpr (List.mem_map_of_mem Prod.fst hx0)⟩
    have hpos : 0 < (stemNames.filter fun n => fileExists fs2 (joinP (joinP
        DEV_CACHE_DIR (cache_key_hash md5hex (basename p) sz m))
        (n ++ ".wav"))).length :=
      List.length_pos.mpr (List.ne_nil_of_mem hx0f)
    simp only [get_cached_stems, hsz2, filterMap_if (fun stem_name =>
      (stem_name, joinP (joinP DEV_CACHE_DIR
        (cache_key_hash md5hex (basename p) sz m)) (stem_name ++ ".wav")))]
    simp only [hdirex, if_true]
    rw [if_pos ?_]
    · exact (List.length_map _ _).symm ▸ hpos
  · -- the returned names are exactly the names of S
    intro n
    constructor
    · intro hnl
      obtain ⟨a, ha, ha2⟩ := List.mem_map.mp hnl
      obtain ⟨a2, ha3, ha4⟩ := List.mem_map.mp ha
      have := List.mem_filter.mp ha3
      have ha5 : a2 = n := by
        rw [← ha2, ← ha4]
      exact (hchar n (ha5 ▸ this.1)).mp (ha5 ▸ this.2)
    · intro hns
      have hn : n ∈ stemNames := by
        obtain ⟨x, hx, hx1⟩ := List.mem_map.mp hns
        exact hx1 ▸ hvocab x hx
      refine List.mem_map.mpr ⟨(n, joinP (joinP DEV_CACHE_DIR
        (cache_key_hash md5hex (basename p) sz m)) (n ++ ".wav")), ?_, rfl⟩
      exact List.mem_map.mpr ⟨n,
        List.mem_filter.mpr ⟨hn, (hchar n hn).mpr hns⟩, rfl⟩
  · -- each stored stem is returned with byte-identical content
    intro x hx
    refine ⟨?_, hcont x hx⟩
    exact List.mem_map.mpr ⟨x.1, List.mem_filter.mpr ⟨hvocab x hx,
      (hchar x.1 (hvocab x hx)).mpr (List.mem_map_of_mem Prod.fst hx)⟩, rfl⟩

theorem cache_round_trip_witness :
    ∃ fs2 l, save_to_cache id ⟨[(["song.mp3"], [0, 1, 2]),
        (["out", "vocals.wav"], [5, 5])], []⟩ ["song.mp3"] "htdemucs"
        [("vocals", ["out", "vocals.wav"])] = .ok fs2 ∧
      get_cached_stems id fs2 ["song.mp3"] "htdemucs" = .ok (fs2, some l) ∧
      (∀ n, n ∈ l.map Prod.fst ↔
        n ∈ [("vocals", (["out", "vocals.wav"] : Path))].map Prod.fst) ∧
      (∀ x ∈ [("vocals", (["out", "vocals.wav"] : Path))],
        (x.1, joinP ["cache", "stems", "song.mp3_3_htdemucs"] (x.1 ++ ".wav")) ∈ l ∧
        lookupFile fs2 (joinP ["cache", "stems", "song.mp3_3_htdemucs"]
          (x.1 ++ ".wav")) =
          lookupFile ⟨[(["song.mp3"], [0, 1, 2]),
            (["out", "vocals.wav"], [5, 5])], []⟩ x.2) :=
  cache_round_trip id ⟨[(["song.mp3"], [0, 1, 2]),
      (["out", "vocals.wav"], [5, 5])], []⟩ ["song.mp3"] "htdemucs"
    [("vocals", ["out", "vocals.wav"])] 3 ["cache", "stems", "song.mp3_3_htdemucs"]
    (by decide) (by decide) (by decide) (by decide) (by decide) (by decide)
    (by decide) (by decide) (by decide)

/-! ### Audio lemmas -/

theorem loadTrack_write_same (fs : AFS) (p : Path) (w : Wave) (sr : Nat) :
    loadTrack (writeTrack fs p w sr) p = some (w, sr) := by
  simp [loadTrack, writeTrack, assocLookup]

theorem absMaxL_nonneg (l : List ℚ) : 0 ≤ absMaxL l := by
  induction l with
  | nil => exact le_refl 0
  | cons x t ih => exact le_trans ih (le_max_right _ _)

theorem peak_nonneg (w : Wave) : 0 ≤ peak w := by
  induction w with
  | nil => exact le_refl 0
  | cons ch t ih => exact le_trans ih (le_max_right _ _)

theorem le_absMaxL {x : ℚ} {l : List ℚ} (h : x ∈ l) : |x| ≤ absMaxL l := by
  induction l with
  | nil => cases h
  | cons a t ih =>
    rcases List.mem_cons.mp h with rfl | h2
    · exact le_max_left _ _
    · exact le_trans (ih h2) (le_max_right _ _)

theorem le_peak {x : ℚ} {ch : List ℚ} {w : Wave} (hch : ch ∈ w) (hx : x ∈ ch) :
    |x| ≤ peak w := by
  induction w with
  | nil => cases hch
  | cons c t ih =>
    rcases List.mem_cons.mp hch with rfl | h2
    · exact le_trans (le_absMaxL hx) (le_max_left _ _)
    · exact le_trans (ih h2) (le_max_right _ _)

theorem absMaxL_le {l : List ℚ} {b : ℚ} (h : ∀ x ∈ l, |x| ≤ b) (hb : 0 ≤ b) :
    absMaxL l ≤ b := by
  induction l with
  | nil => exact hb
  | cons x t ih =>
    exact max_le (h x (List.mem_cons_self _ _))
      (ih fun y hy => h y (List.mem_cons_of_mem _ hy))

theorem peak_le {w : Wave} {b : ℚ} (h : ∀ ch ∈ w, ∀ x ∈ ch, |x| ≤ b)
    (hb : 0 ≤ b) : peak w ≤ b := by
  induction w with
  | nil => exact hb
  | cons ch t ih =>
    exact max_le (absMaxL_le (h ch (List.mem_cons_self _ _)) hb)
      (ih fun c hc => h c (List.mem_cons_of_mem _ hc))

/-- The peak of the normalized mix never exceeds 0.9 (exactly 0.9 when the
raw peak is positive, the all-zero waveform otherwise). -/
theorem normalizeMix_peak_le (w : Wave) : peak (normalizeMix w) ≤ 9 / 10 := by
  unfold normalizeMix
  split
  · rename_i hp
    apply peak_le
    · intro ch hch x hx
      obtain ⟨ch0, hch0, rfl⟩ := List.mem_map.mp hch
      obtain ⟨x0, hx0, rfl⟩ := List.mem_map.mp hx
      have h1 : |x0 / peak w * (9 / 10)| = |x0| / peak w * (9 / 10) := by
        rw [abs_mul, abs_div, abs_of_pos hp]
        norm_num
      rw [h1]
      calc |x0| / peak w * (9 / 10) ≤ 1 * (9 / 10) := by
            apply mul_le_mul_of_nonneg_right _ (by norm_num)
            exact (div_le_one hp).mpr (le_peak hch0 hx0)
        _ = 9 / 10 := one_mul _
    · norm_num
  · rename_i hp
    have h0 : peak w = 0 := le_antisymm (not_lt.mp hp) (peak_nonneg w)
    rw [h0]
    norm_num

/-- The loop of `mix_stems` computes the pairwise combination of exactly the
successfully loaded selected stems, skipping unknown names and failed loads. -/
theorem mixLoop_eq_combine (fs : AFS) (S : List (String × Path)) :
    ∀ (sel : List String) (acc : Option (Wave × Nat)),
    mixLoop fs S acc sel = combineLoaded acc (loadedWaves fs S sel) := by
  intro sel
  induction sel with
  | nil => intro acc; cases acc <;> rfl
  | cons n rest ih =>
    intro acc
    simp only [mixLoop, loadedWaves, List.filterMap_cons]
    cases hl : assocLookup S n with
    | none =>
      simp only [Option.none_bind]
      exact ih acc
    | some pth =>
      simp only [Option.some_bind]
      cases ht : loadTrack fs pth with
      | none => exact ih acc
      | some wsr =>
        obtain ⟨w, sr⟩ := wsr
        cases acc with
        | none =>
          simp only [combineLoaded]
          exact ih _
        | some mx =>
          obtain ⟨mw, msr⟩ := mx
          simp only [combineLoaded]
          exact ih _

theorem combineLoaded_some (l : List (Wave × Nat)) :
    ∀ x, (combineLoaded (some x) l).isSome = true := by
  induction l with
  | nil => intro x; rfl
  | cons y t ih =>
    intro x
    obtain ⟨m, s⟩ := x
    obtain ⟨w, sr⟩ := y
    exact ih _

theorem combineLoaded_isSome {l : List (Wave × Nat)} (h : l ≠ []) :
    (combineLoaded none l).isSome = true := by
  cases l with
  | nil => exact absurd rfl h
  | cons y t =>
    obtain ⟨w, sr⟩ := y
    exact combineLoaded_some t _

/-! ### Claim C5: empty selection -/

/-- C5: for every stem set, calling `mix_stems` with the empty selection
returns `None` and leaves the audio filesystem untouched (no output file is
written). -/
theorem mix_empty_selection (env : SaveBackends) (fs : AFS)
    (stem_paths : List (String × Path)) (output_path : Path) :
    mix_stems env fs stem_paths output_path [] = (fs, none) := rfl

/-! ### Claim C6: mix normalization -/

/-- C6: whenever at least one selected stem loads successfully, the loop
yields a mix whose normalized form has peak at most 0.9; the normalization
is the peak-scaled-to-0.9 map whenever the raw peak is positive, and the
waveform `mix_stems` actually writes (whenever it returns a path) is exactly
that normalized mix. -/
theorem mix_normalization (env : SaveBackends) (fs : AFS)
    (stem_paths : List (String × Path)) (output_path : Path)
    (include_list : List String)
    (h : loadedWaves fs stem_paths include_list ≠ []) :
    ∃ w sr, mixLoop fs stem_paths none include_list = some (w, sr) ∧
      peak (normalizeMix w) ≤ 9 / 10 ∧
      (0 < peak w → normalizeMix w =
        w.map fun ch => ch.map fun x => x / peak w * (9 / 10)) ∧
      (∀ fs' r, mix_stems env fs stem_paths output_path include_list =
          (fs', some r) →
        loadTrack fs' r = some (normalizeMix w, sr)) := by
  have hiso : (mixLoop fs stem_paths none include_list).isSome = true := by
    rw [mixLoop_eq_combine]
    exact combineLoaded_isSome h
  obtain ⟨⟨w, sr⟩, hw⟩ := Option.isSome_iff_exists.mp hiso
  refine ⟨w, sr, hw, normalizeMix_peak_le w,
    fun hp => by simp [normalizeMix, hp], ?_⟩
  intro fs' r hmix
  cases include_list with
  | nil => exact absurd rfl h
  | cons n rest =>
    simp only [mix_stems, List.isEmpty_cons, Bool.false_eq_true, if_false, hw] at hmix
    by_cases hsf : env.soundfileOk
    · simp only [hsf, if_true] at hmix
      rw [Prod.mk.injEq] at hmix
      obtain ⟨h1, h2⟩ := hmix
      have h3 := Option.some.inj h2
      subst h3
      subst h1
      exact loadTrack_write_same _ _ _ _
    · simp only [hsf, if_false] at hmix
      by_cases hdf : env.defaultOk
      · simp only [hdf, if_true] at hmix
        rw [Prod.mk.injEq] at hmix
        obtain ⟨h1, h2⟩ := hmix
        have h3 := Option.some.inj h2
        subst h3
        subst h1
        exact loadTrack_write_same _ _ _ _
      · simp only [hdf, if_false] at hmix
        exact absurd (congrArg Prod.snd hmix) (by simp)

/-! ### Claim C7: partial mix tolerance -/

/-- C7: failing selected stems are skipped without aborting: when at least
one selected stem loads and the save backend works, `mix_stems` returns the
output path and writes the normalized combination of exactly the
successfully loaded selected stems. -/
theorem partial_mix_tolerance (env : SaveBackends) (fs : AFS)
    (stem_paths : List (String × Path)) (output_path : Path)
    (include_list : List String)
    (h : loadedWaves fs stem_paths include_list ≠ [])
    (hsf : env.soundfileOk = true) :
    ∃ w sr,
      combineLoaded none (loadedWaves fs stem_paths include_list) = some (w, sr) ∧
      mix_stems env fs stem_paths output_path include_list =
        (writeTrack (mkdirA fs (dirname output_path)) output_path
          (normalizeMix w) sr, some output_path) := by
  obtain ⟨⟨w, sr⟩, hw⟩ := Option.isSome_iff_exists.mp (combineLoaded_isSome h)
  refine ⟨w, sr, hw, ?_⟩
  cases include_list with
  | nil => exact absurd rfl h
  | cons n rest =>
    have hml : mixLoop fs stem_paths none (n :: rest) = some (w, sr) := by
      rw [mixLoop_eq_combine]
      exact hw
    simp only [mix_stems, List.isEmpty_cons, Bool.false_eq_true, if_false, hml,
      hsf, if_true]

theorem partial_mix_tolerance_witness :
    ∃ w sr,
      combineLoaded none (loadedWaves
        ⟨[(["s", "vocals.wav"], ([[1 / 2]], 44100)),
          (["s", "bass.wav"], ([[1 / 4]], 44100))], []⟩
        [("vocals", ["s", "vocals.wav"]), ("drums", ["s", "drums.wav"]),
          ("bass", ["s", "bass.wav"])]
        ["vocals", "drums", "bass"]) = some (w, sr) ∧
      mix_stems ⟨true, true⟩
        ⟨[(["s", "vocals.wav"], ([[1 / 2]], 44100)),
          (["s", "bass.wav"], ([[1 / 4]], 44100))], []⟩
        [("vocals", ["s", "vocals.wav"]), ("drums", ["s", "drums.wav"]),
          ("bass", ["s", "bass.wav"])]
        ["m", "mix.wav"] ["vocals", "drums", "bass"] =
        (writeTrack (mkdirA ⟨[(["s", "vocals.wav"], ([[1 / 2]], 44100)),
            (["s", "bass.wav"], ([[1 / 4]], 44100))], []⟩ (dirname ["m", "mix.wav"]))
          ["m", "mix.wav"] (normalizeMix w) sr, some ["m", "mix.wav"]) :=
  partial_mix_tolerance ⟨true, true⟩ _ _ ["m", "mix.wav"]
    ["vocals", "drums", "bass"] (by decide) rfl

theorem mix_normalization_witness :
    ∃ w sr, mixLoop
        ⟨[(["s", "vocals.wav"], ([[1 / 2]], 44100)),
          (["s", "bass.wav"], ([[1 / 4]], 44100))], []⟩
        [("vocals", ["s", "vocals.wav"]), ("bass", ["s", "bass.wav"])]
        none ["vocals", "bass"] = some (w, sr) ∧
      peak (normalizeMix w) ≤ 9 / 10 ∧
      (0 < peak w → normalizeMix w =
        w.map fun ch => ch.map fun x => x / peak w * (9 / 10)) ∧
      (∀ fs' r, mix_stems ⟨true, true⟩
          ⟨[(["s", "vocals.wav"], ([[1 / 2]], 44100)),
            (["s", "bass.wav"], ([[1 / 4]], 44100))], []⟩
          [("vocals", ["s", "vocals.wav"]), ("bass", ["s", "bass.wav"])]
          ["m", "mix.wav"] ["vocals", "bass"] = (fs', some r) →
        loadTrack fs' r = some (normalizeMix w, sr)) :=
  mix_normalization ⟨true, true⟩
    ⟨[(["s", "vocals.wav"], ([[1 / 2]], 44100)),
      (["s", "bass.wav"], ([[1 / 4]], 44100))], []⟩
    [("vocals", ["s", "vocals.wav"]), ("bass", ["s", "bass.wav"])]
    ["m", "mix.wav"] ["vocals", "bass"] (by decide)

/-! ### Claim C10: unknown selected names are silently excluded -/

theorem mixLoop_filter_known (fs : AFS) (S : List (String × Path)) :
    ∀ (sel : List String) (acc : Option (Wave × Nat)),
    mixLoop fs S acc sel =
      mixLoop fs S acc (sel.filter fun n => (assocLookup S n).isSome) := by
  intro sel
  induction sel with
  | nil => intro acc; rfl
  | cons n rest ih =>
    intro acc
    cases hl : assocLookup S n with
    | none =>
      simp only [List.filter_cons, hl, Option.isSome_none, Bool.false_eq_true,
        if_false]
      simp only [mixLoop, hl]
      exact ih acc
    | some pth =>
      simp only [List.filter_cons, hl, Option.isSome_some, if_true]
      simp only [mixLoop, hl]
      cases ht : loadTrack fs pth with
      | none => exact ih acc
      | some wsr =>
        obtain ⟨w, sr⟩ := wsr
        cases acc with
        | none => exact ih _
        | some mx =>
          obtain ⟨mw, msr⟩ := mx
          exact ih _

/-- C10: for a non-empty selection, `mix_stems` behaves exactly as if the
selected names missing from the stem mapping had been silently removed (no
error for unknown names), and when no selected stem both exists in the
mapping and loads successfully, it returns `None` with the filesystem
untouched — so `None` is not exclusive to an empty selection. -/
theorem mix_unknown_names (env : SaveBackends) (fs : AFS)
    (stem_paths : List (String × Path)) (output_path : Path)
    (include_list : List String) :
    mix_stems env fs stem_paths output_path include_list =
      mix_stems env fs stem_paths output_path
        (include_list.filter fun n => (assocLookup stem_paths n).isSome) ∧
    (loadedWaves fs stem_paths include_list = [] →
      mix_stems env fs stem_paths output_path include_list = (fs, none)) := by
  constructor
  · cases include_list with
    | nil => rfl
    | cons n rest =>
      cases hf : (n :: rest).filter (fun n => (assocLookup stem_paths n).isSome) with
      | nil =>
        have hml : mixLoop fs stem_paths none (n :: rest) = none := by
          rw [mixLoop_filter_known, hf]
          rfl
        simp [mix_stems, hf, hml]
      | cons m t =>
        have hml := mixLoop_filter_known fs stem_paths (n :: rest) none
        rw [hf] at hml
        simp only [mix_stems, List.isEmpty_cons, Bool.false_eq_true, if_false,
          hf, hml]
  · intro hlw
    have hml : mixLoop fs stem_paths none include_list = none := by
      rw [mixLoop_eq_combine, hlw]
      rfl
    cases include_list with
    | nil => rfl
    | cons n rest => simp [mix_stems, hml]

theorem mix_unknown_names_witness :
    mix_stems ⟨true, true⟩ (⟨[], []⟩ : AFS) [("vocals", ["v.wav"])]
      ["m", "mix.wav"] ["vocals", "piano"] = ((⟨[], []⟩ : AFS), none) :=
  (mix_unknown_names ⟨true, true⟩ ⟨[], []⟩ [("vocals", ["v.wav"])]
    ["m", "mix.wav"] ["vocals", "piano"]).2 (by decide)

/-! ### Claim C8: the decode fallback chain -/

/-- C8 (counterexample): the claim's three-strategy chain, as stated for
every input file, fails: on an input whose extension is not one of
`.m4a`/`.aac`/`.mp4`, `load_audio` raises even though the third strategy
(ffmpeg conversion followed by a decode) would succeed, so the error is not
raised "only after the chain is exhausted". -/
theorem decode_chain_cex :
    load_audio cexDecoders (fun _ _ w => w) ["song.ogg"] 44100 =
      .error .couldNotLoad ∧
    firstSuccess [cexDecoders.torchLoad ["song.ogg"],
      (cexDecoders.librosaLoad ["song.ogg"] none).map
        (fun yr => (vstackDup yr.1, yr.2)),
      (cexDecoders.ffmpegConvert ["song.ogg"]).bind cexDecoders.torchLoad] =
      some ([[1 / 2], [1 / 2]], 44100) :=
  ⟨rfl, rfl⟩

/-- `load_audio` equals the short-circuiting first success of its (extension
dependent) strategy chain, post-processed, or the corresponding error when
the applicable chain is exhausted. -/
theorem load_audio_eq_chain (d : Decoders) (resample : Nat → Nat → Wave → Wave)
    (input_file : Path) (target_sr : Nat) :
    load_audio d resample input_file target_sr =
      match firstSuccess (decodeStrategies d input_file target_sr) with
      | some (w, sr) => .ok (postLoad resample w sr target_sr)
      | none => .error (if extOf input_file ∈ [".m4a", ".aac", ".mp4"]
          then .allAttemptsFailed else .couldNotLoad) := by
  by_cases hext : extOf input_file ∈ [".m4a", ".aac", ".mp4"]
  · simp only [load_audio, decodeStrategies, hext, if_true]
    cases ht1 : d.torchLoad input_file with
    | some v =>
      obtain ⟨w, sr⟩ := v
      simp [firstSuccess]
    | none =>
      cases hl1 : d.librosaLoad input_file none with
      | some v =>
        obtain ⟨y, sr⟩ := v
        simp [firstSuccess]
      | none =>
        cases h3 : (d.ffmpegConvert input_file).bind d.torchLoad with
        | some v =>
          obtain ⟨w, sr⟩ := v
          simp [firstSuccess, hext]
        | none =>
          cases h4 : d.librosaLoad input_file (some target_sr) with
          | some v =>
            obtain ⟨y, sr⟩ := v
            simp [firstSuccess, hext]
          | none => simp [firstSuccess, hext]
  · simp only [load_audio, decodeStrategies, hext, if_false]
    cases ht1 : d.torchLoad input_file with
    | some v =>
      obtain ⟨w, sr⟩ := v
      simp [firstSuccess]
    | none =>
      cases hl1 : d.librosaLoad input_file none with
      | some v =>
        obtain ⟨y, sr⟩ := v
        simp [firstSuccess]
      | none => simp [firstSuccess, hext]

/-- C8 (amended): `load_audio` tries an ordered chain of decoding strategies
short-circuiting on the first success — format-native decode, generic
decode, and, only for `.m4a`/`.aac`/`.mp4` inputs, converter-then-decode
followed by a target-rate generic decode — and raises a fatal error exactly
when that (extension dependent) chain is exhausted. -/
theorem decode_chain_amended (d : Decoders) (resample : Nat → Nat → Wave → Wave)
    (input_file : Path) (target_sr : Nat) :
    (∀ w sr, firstSuccess (decodeStrategies d input_file target_sr) = some (w, sr) →
      load_audio d resample input_file target_sr =
        .ok (postLoad resample w sr target_sr)) ∧
    (firstSuccess (decodeStrategies d input_file target_sr) = none →
      ∃ e, load_audio d resample input_file target_sr = .error e) := by
  constructor
  · intro w sr hfs
    rw [load_audio_eq_chain, hfs]
  · intro hfs
    rw [load_audio_eq_chain, hfs]
    exact ⟨_, rfl⟩

theorem decode_chain_amended_witness :
    (firstSuccess (decodeStrategies cexDecoders ["song.m4a"] 44100) =
      some ([[1 / 2], [1 / 2]], 44100)) ∧
    load_audio cexDecoders (fun _ _ w => w) ["song.m4a"] 44100 =
      .ok (postLoad (fun _ _ w => w) [[1 / 2], [1 / 2]] 44100 44100) :=
  ⟨rfl, (decode_chain_amended cexDecoders (fun _ _ w => w) ["song.m4a"]
    44100).1 [[1 / 2], [1 / 2]] 44100 rfl⟩

/-! ### Claim C9: separate_audio converts load failures into the empty map -/

/-- C9: when `load_audio` raises, `separate_audio` does not propagate the
exception: it returns the empty mapping of stem paths (with only the output
directory created), so callers observe failure as an empty result. -/
theorem separate_audio_load_failure (env : SepEnv) (fs : AFS)
    (input_file output_dir : Path) (model_name : String) (e : LoadError)
    (h : load_audio env.dec env.resample input_file
      (env.modelSamplerate model_name) = .error e) :
    separate_audio env fs input_file output_dir model_name =
      .ok (mkdirA fs output_dir, []) := by
  unfold separate_audio
  rw [h]

theorem separate_audio_load_failure_witness :
    separate_audio
      ⟨⟨fun _ => none, fun _ _ => none, fun _ => none⟩, fun _ _ w => w,
        fun _ => 44100, fun _ => ["vocals", "drums", "bass", "other"],
        fun _ _ => [], true, true, true⟩
      (⟨[], []⟩ : AFS) ["song.wav"] ["out"] "htdemucs" =
      .ok (mkdirA (⟨[], []⟩ : AFS) ["out"], []) :=
  separate_audio_load_failure
    ⟨⟨fun _ => none, fun _ _ => none, fun _ => none⟩, fun _ _ w => w,
      fun _ => 44100, fun _ => ["vocals", "drums", "bass", "other"],
      fun _ _ => [], true, true, true⟩
    ⟨[], []⟩ ["song.wav"] ["out"] "htdemucs" .couldNotLoad rfl

end StemViz
